import Mathlib

/-!
Verification of the contracts-caller reliability core against its
natural-language specification.  The Go source is shallowly embedded:
pure functions become Lean functions, stateful methods become explicit
state-passing functions, machine integers become `Nat`/`Int` (with
`% 2^64` where Go's `uint64` wrap-around matters), and fallible code
returns `Option`/`Except`.
-/

namespace ContractsCaller

/-! ## txmgr.SendState (txmgr/send_state.go)

Go source:
```
type SendState struct {
  minedTxs                  map[common.Hash]struct{}
  nonceTooLowCount          uint64
  safeAbortNonceTooLowCount uint64
}
```
Hashes are abstracted as `Nat`; the Go map with `struct{}` values is a
finite set (`Finset Nat`).  Errors are `Option String`
(`none` = Go `nil` error). -/

/-- Embedding of Go `strings.Contains` on the underlying character lists:
`containsSub s sub = true` iff `sub` occurs as a contiguous sublist of `s`. -/
def containsSub (s sub : List Char) : Bool :=
  sub.isPrefixOf s ||
    match s with
    | [] => false
    | _ :: t => containsSub t sub

/-- Message of `core.ErrNonceTooLow` from go-ethereum. -/
def errNonceTooLowMsg : String := "nonce too low"

/-- A Go `error` value: `none` is the `nil` error, `some msg` an error
whose `Error()` string is `msg`. -/
def GoError : Type := Option String

structure SendState where
  minedTxs : Finset Nat
  nonceTooLowCount : Nat
  safeAbortNonceTooLowCount : Nat
deriving DecidableEq

/-- Constructor `NewSendState`: panics (here: `none`) when the threshold is zero,
otherwise starts with an empty mined set and a zero counter. -/
def NewSendState (safeAbortNonceTooLowCount : Nat) : Option SendState :=
  if safeAbortNonceTooLowCount = 0 then none
  else some { minedTxs := ∅
            , nonceTooLowCount := 0
            , safeAbortNonceTooLowCount := safeAbortNonceTooLowCount }

/-- The test of `ProcessSendError`: the error is non-nil and its message
contains `core.ErrNonceTooLow.Error()` as a substring. -/
def isNonceTooLowError (err : GoError) : Bool :=
  match err with
  | none => false
  | some msg => containsSub msg.data errNonceTooLowMsg.data

/-- Method `(*SendState).ProcessSendError`: increments `nonceTooLowCount` exactly
on a nonce-too-low-class error; every other error (including `nil`) is a
no-op. -/
def SendState.processSendError (s : SendState) (err : GoError) : SendState :=
  match err with
  | none => s
  | some msg =>
    if containsSub msg.data errNonceTooLowMsg.data then
      { s with nonceTooLowCount := s.nonceTooLowCount + 1 }
    else s

/-- Method `(*SendState).TxMined`: inserts the hash into the mined set. -/
def SendState.txMined (s : SendState) (txHash : Nat) : SendState :=
  { s with minedTxs := insert txHash s.minedTxs }

/-- Method `(*SendState).TxNotMined`: removes the hash; if the removal empties a
set that contained the hash, the nonce-too-low counter is reset to 0. -/
def SendState.txNotMined (s : SendState) (txHash : Nat) : SendState :=
  let wasMined := txHash ∈ s.minedTxs
  let mined' := s.minedTxs.erase txHash
  if mined' = ∅ ∧ wasMined then
    { s with minedTxs := mined', nonceTooLowCount := 0 }
  else
    { s with minedTxs := mined' }

/-- Method `(*SendState).ShouldAbortImmediately`: never abort while something is
mined; otherwise abort iff the counter reached the threshold. -/
def SendState.shouldAbortImmediately (s : SendState) : Bool :=
  if 0 < s.minedTxs.card then false
  else decide (s.safeAbortNonceTooLowCount ≤ s.nonceTooLowCount)

/-- Method `(*SendState).IsWaitingForConfirmation`: the mined set is non-empty. -/
def SendState.isWaitingForConfirmation (s : SendState) : Bool :=
  decide (0 < s.minedTxs.card)

/-! ## synchronizer/retry (operation.go)

Durations are `Int` nanoseconds, matching Go's `time.Duration`
(an `int64` of nanoseconds).  The Go code computes the exponential base
in `float64`; that arithmetic is exact for all values below `2^53`, which
covers every configuration appearing in this repository, so the embedding
uses exact integer arithmetic. -/

/-- Go `time.Second` expressed in nanoseconds. -/
def timeSecondNs : Int := 1000000000

structure ExponentialStrategy where
  Min : Int
  Max : Int
  MaxJitter : Int
deriving DecidableEq

/-- Method `(*ExponentialStrategy).Duration`.  Here `jit` is the value produced by
`rand.Int63n(e.MaxJitter.Nanoseconds())`, i.e. the uniformly sampled
jitter in `[0, MaxJitter)`; it is only consulted when `MaxJitter > 0`
(otherwise the Go code leaves `jitter` at zero). -/
def ExponentialStrategy.duration (e : ExponentialStrategy) (attempt : Int) (jit : Int) : Int :=
  let jitter : Int := if 0 < e.MaxJitter then jit else 0
  if attempt < 0 then e.Min + jitter
  else
    let durFloat : Int := e.Min + 2 ^ attempt.toNat * timeSecondNs
    let dur : Int := if e.Max < durFloat then e.Max else durFloat
    dur + jitter

/-- The strategy literal the Synchronizer passes to the retry executor at
synchronizer.go:225: `&retry.ExponentialStrategy{Min: 1000, Max: 20_000,
MaxJitter: 250}` — untyped constants assigned to `time.Duration` fields,
hence nanoseconds. -/
def syncRetryStrategy : ExponentialStrategy :=
  { Min := 1000, Max := 20000, MaxJitter := 250 }

/-- The attempt count the Synchronizer passes to `retry.Do` at
synchronizer.go:226. -/
def syncRetryMaxAttempts : Int := 10

/-- Outcome of `retry.Do`:  the `error` side distinguishes the value
returned for a cancelled context, the synchronous usage error for
`maxAttempts < 1`, and `*ErrFailedPermanently{attempts, LastErr}`
(whose `LastErr` field is Go's possibly-nil `error`, hence `Option E`). -/
inductive DoResult (E T : Type) where
  | ok (value : T)
  | ctxCancelled (e : E)
  | usageError (maxAttempts : Int)
  | failedPermanently (attempts : Int) (lastErr : Option E)
deriving DecidableEq

/-- The loop body of `retry.Do`.  `ctxErr i` is what `ctx.Err()` returns
before the `i`-th attempt, `op i` the result of the `i`-th invocation of
the operation.  Returns the number of times the operation was invoked
together with the result.  `remaining` counts the loop iterations left
(`i + remaining = maxAttempts` at every call); `prevErr` carries the
error of the previous attempt, as Go's loop-scoped `err` variable does. -/
def doAux {E T : Type} (ctxErr : Nat → Option E) (op : Nat → Except E T)
    (maxAttempts : Int) : Nat → Nat → Option E → Nat × DoResult E T
  | _, 0, prevErr => (0, .failedPermanently maxAttempts prevErr)
  | i, r + 1, prevErr =>
    match ctxErr i with
    | some e => (0, .ctxCancelled e)
    | none =>
      match op i with
      | .ok v => (1, .ok v)
      | .error e =>
        let rest := doAux ctxErr op maxAttempts (i + 1) r (some e)
        (rest.1 + 1, rest.2)

/-- Function `retry.Do`: rejects `maxAttempts < 1` synchronously with zero
invocations, otherwise runs the attempt loop.  (The inter-attempt
`time.Sleep` has no observable effect on the result and is not
modelled.) -/
def retryDo {E T : Type} (ctxErr : Nat → Option E) (op : Nat → Except E T)
    (maxAttempts : Int) : Nat × DoResult E T :=
  if maxAttempts < 1 then (0, .usageError maxAttempts)
  else doAux ctxErr op maxAttempts 0 maxAttempts.toNat none

/-! ## synchronizer/node/header_traversal.go and common/bigint/bigint.go

Block numbers are `Nat` (non-negative `big.Int`s on chain), the
confirmation depth an `Int` (arbitrary `big.Int`), and intermediate
heights `Int` since `latest.number − confirmationDepth` may be negative.
The 32-byte digests are abstracted as `Nat`; `types.Header.Hash()` —
the keccak of the RLP-encoded header — is abstracted as a function
`hashFn : Header → Nat` every theorem quantifies over. -/

structure Header where
  number : Nat
  parentHash : Nat
  time : Nat
deriving DecidableEq

/-- Function `bigint.Clamp(start, end, size)`.  The Go code computes
`count := (end−start).Uint64() + 1` and, when `count > size`, returns
`start + int64(size−1)`; the embedding is faithful for
`0 ≤ end − start < 2^64 − 1` and `size < 2^63` (note `size = 0` passes
through the uint64→int64 round trip as `−1`, giving `start − 1`, which
`(size : Int) − 1` reproduces). -/
def clamp (start endH : Int) (size : Nat) : Int :=
  if endH - start + 1 ≤ (size : Int) then endH
  else start + ((size : Int) - 1)

/-- The model of `EthClient` as the header traversal consumes it:
`latest` is the outcome of `BlockHeaderByNumber(nil)` (`none` covering
both an RPC error and a nil header, which `NextHeaders` turns into the
same error return), and `range a b` the outcome of
`BlockHeadersByRange(a, b, chainId)`. -/
structure EthClientM where
  latest : Option Header
  range : Int → Int → Option (List Header)

structure HeaderTraversal where
  latestHeader : Option Header
  lastTraversedHeader : Option Header
  blockConfirmationDepth : Int
deriving DecidableEq

inductive TraversalError where
  | latestQueryFail
  | aheadOfProvider
  | mismatchedState
  | rangeQueryFail
deriving DecidableEq

/-- Value `nextHeight` as computed at header_traversal.go:77-80: cursor + 1,
or 0 when no cursor exists. -/
def nextHeightOf (f : HeaderTraversal) : Int :=
  match f.lastTraversedHeader with
  | some lt => (lt.number : Int) + 1
  | none => 0

/-- The window `[nextHeight, end]` handed to `BlockHeadersByRange` at
header_traversal.go:83-85. -/
def fetchWindow (f : HeaderTraversal) (endHeight : Int) (maxSize : Nat) : Int × Int :=
  (nextHeightOf f, clamp (nextHeightOf f) endHeight maxSize)

/-- The fetch-and-validate tail of `NextHeaders`
(header_traversal.go:76-104), reached once the head query succeeded and
the cursor checks passed.  `f` already carries the freshly stored
`latestHeader`. -/
def nextHeadersFetch (hashFn : Header → Nat) (client : EthClientM)
    (f : HeaderTraversal) (endHeight : Int) (maxSize : Nat) :
    Except TraversalError (List Header) × HeaderTraversal :=
  let w := fetchWindow f endHeight maxSize
  match client.range w.1 w.2 with
  | none => (.error .rangeQueryFail, f)
  | some headers =>
    match headers with
    | [] => (.ok [], f)
    | h0 :: _ =>
      match f.lastTraversedHeader with
      | some lt =>
        if h0.parentHash ≠ hashFn lt then (.error .mismatchedState, f)
        else (.ok headers, { f with lastTraversedHeader := headers.getLast? })
      | none => (.ok headers, { f with lastTraversedHeader := headers.getLast? })

/-- Method `(*HeaderTraversal).NextHeaders(maxSize)`: queries the head, stores
it, computes the confirmed end height, performs the cursor checks, and
delegates to the fetch tail.  Returns the result together with the
mutated receiver. -/
def nextHeaders (hashFn : Header → Nat) (client : EthClientM)
    (f : HeaderTraversal) (maxSize : Nat) :
    Except TraversalError (List Header) × HeaderTraversal :=
  match client.latest with
  | none => (.error .latestQueryFail, f)
  | some latest =>
    let f := { f with latestHeader := some latest }
    let endHeight : Int := (latest.number : Int) - f.blockConfirmationDepth
    if endHeight < 0 then (.ok [], f)
    else
      match f.lastTraversedHeader with
      | some lt =>
        if (lt.number : Int) = endHeight then (.ok [], f)
        else if endHeight < (lt.number : Int) then (.error .aheadOfProvider, f)
        else nextHeadersFetch hashFn client f endHeight maxSize
      | none => nextHeadersFetch hashFn client f endHeight maxSize

/-- Parent-hash linkage of adjacent headers, as the spec's batch
invariant states it: `h[i+1].parentHash == hash(h[i])` for every pair of
consecutive headers. -/
def linked (hashFn : Header → Nat) : List Header → Bool
  | [] => true
  | [_] => true
  | h0 :: h1 :: rest =>
    decide (h1.parentHash = hashFn h0) && linked hashFn (h1 :: rest)

/-- Toy hash for concrete instances: nothing collides with a
`parentHash` below 1000. -/
def cexHashFn (h : Header) : Nat := h.number + 1000

def cexHeader0 : Header := { number := 0, parentHash := 7, time := 0 }

def cexHeader1 : Header := { number := 1, parentHash := 42, time := 0 }

/-- A provider whose head is block 5 and whose range responses are two
genuine-looking headers that are *not* parent-linked to each other. -/
def cexClient : EthClientM :=
  { latest := some { number := 5, parentHash := 0, time := 0 }
  , range := fun _ _ => some [cexHeader0, cexHeader1] }

/-- A fresh traversal: no cursor, confirmation depth 0. -/
def cexTraversal : HeaderTraversal :=
  { latestHeader := none, lastTraversedHeader := none, blockConfirmationDepth := 0 }

/-- A header parent-linked to `cexHeader0` under `cexHashFn`. -/
def linkHeaderB : Header := { number := 1, parentHash := 1000, time := 0 }

/-- A provider whose range responses are parent-linked. -/
def linkedClient : EthClientM :=
  { latest := some { number := 5, parentHash := 0, time := 0 }
  , range := fun _ _ => some [cexHeader0, linkHeaderB] }

/-- A provider that always answers range queries with the empty list —
vacuously honest about header numbers. -/
def emptyRangeClient : EthClientM :=
  { latest := some { number := 5, parentHash := 0, time := 0 }
  , range := fun _ _ => some [] }

/-! ## synchronizer/synchronizer.go

`processBatch` and one iteration of the `Start` polling loop.  The
database record `common2.BlockHeader` keeps hash, parent hash, number
and timestamp (the RLP blob is not modelled); its Go zero value — zero
digests, nil `Number` (modelled 0), zero timestamp — is
`zeroBlockRecord`. -/

instance {E T : Type} [DecidableEq E] [DecidableEq T] : DecidableEq (Except E T) :=
  fun a b =>
    match a, b with
    | .ok x, .ok y =>
      if h : x = y then isTrue (by rw [h]) else isFalse (fun hc => h (Except.ok.inj hc))
    | .error x, .error y =>
      if h : x = y then isTrue (by rw [h]) else isFalse (fun hc => h (Except.error.inj hc))
    | .ok _, .error _ => isFalse (fun hc => Except.noConfusion hc)
    | .error _, .ok _ => isFalse (fun hc => Except.noConfusion hc)

structure BlockRecord where
  hash : Nat
  parentHash : Nat
  number : Nat
  timestamp : Nat
deriving DecidableEq

def zeroBlockRecord : BlockRecord :=
  { hash := 0, parentHash := 0, number := 0, timestamp := 0 }

/-- The header-record construction of `processBatch`
(synchronizer.go:194-207): `make([]common2.BlockHeader, len(headers))`
allocates `len(headers)` zero-valued records up front, and the loop then
*appends* one converted record per header (the `Number == nil` skip
never fires for decoded headers, whose numbers are total here). -/
def buildBlockHeaders (hashFn : Header → Nat) (headers : List Header) : List BlockRecord :=
  List.replicate headers.length zeroBlockRecord ++
    headers.map (fun h =>
      { hash := hashFn h, parentHash := h.parentHash
      , number := h.number, timestamp := h.time })

/-- A contract event log as `processBatch` consumes it: only the block
hash steers control flow (header-map lookup). -/
structure LogM where
  blockHash : Nat
deriving DecidableEq

/-- The `node.Logs` pair returned by `FilterLogs`. -/
structure LogsM where
  logs : List LogM
  toBlockHeader : Header
deriving DecidableEq

/-- The environment one `processBatch` call runs against:
`addressList` is the outcome of `QueryPoxyCreatedAddressList` (`none` =
error), `filterLogs` of `ethClient.FilterLogs`, `persistCtx i` what the
resource context's `ctx.Err()` yields before retry attempt `i`, and
`persist i` the outcome of the `i`-th `db.Transaction` attempt (the
transaction stores the `buildBlockHeaders` records and the event
records; its success does not depend on their values, so the payload is
not threaded through). -/
structure PBEnv where
  addressList : Option (List Nat)
  filterLogs : Option LogsM
  persistCtx : Nat → Option Unit
  persist : Nat → Except Unit Unit

inductive ProcessBatchError where
  | addrQueryFail
  | filterFail
  | toBlockNumberMismatch
  | toBlockHashMismatch
  | persistFail
deriving DecidableEq

/-- Method `(*Synchronizer).processBatch` (synchronizer.go:144-246): empty
batches succeed trivially; otherwise query the watch-list, filter logs,
cross-validate the provider's `ToBlock` header against the batch's last
header (number, then hash), and run the persistence transaction under
`retry.Do` with 10 attempts.  Every distinct Go error return is a
distinct constructor except the retry failure, which collapses the
wrapped error. -/
def processBatch (hashFn : Header → Nat) (env : PBEnv) (headers : List Header) :
    Except ProcessBatchError Unit :=
  match headers with
  | [] => .ok ()
  | h0 :: rest =>
    let lastHeader := (h0 :: rest).getLast (by simp)
    match env.addressList with
    | none => .error .addrQueryFail
    | some _ =>
      match env.filterLogs with
      | none => .error .filterFail
      | some logs =>
        if logs.toBlockHeader.number ≠ lastHeader.number then
          .error .toBlockNumberMismatch
        else if hashFn logs.toBlockHeader ≠ hashFn lastHeader then
          .error .toBlockHashMismatch
        else
          match (retryDo env.persistCtx env.persist syncRetryMaxAttempts).2 with
          | .ok _ => .ok ()
          | .ctxCancelled _ => .error .persistFail
          | .usageError _ => .error .persistFail
          | .failedPermanently _ _ => .error .persistFail

/-- The predicate "this iteration's persistence transaction ran and
succeeded": all steps before the transaction passed and some retry
attempt of the transaction returned without error. -/
def persistSucceeded (hashFn : Header → Nat) (env : PBEnv) (lastHeader : Header) : Prop :=
  (∃ l, env.addressList = some l) ∧
  (∃ logs, env.filterLogs = some logs ∧
    logs.toBlockHeader.number = lastHeader.number ∧
    hashFn logs.toBlockHeader = hashFn lastHeader) ∧
  (∃ v, (retryDo env.persistCtx env.persist syncRetryMaxAttempts).2 = .ok v)

/-- The Synchronizer's mutable batch buffer (`syncer.headers`). -/
structure SyncState where
  headers : List Header
deriving DecidableEq

/-- One iteration of the `Start` polling loop (synchronizer.go:95-138):
a pending batch is re-processed without fetching; otherwise fetch — a
fetch error skips the iteration (`continue`), an empty result leaves the
buffer empty, a non-empty result fills it — and process the buffer; the
buffer is cleared exactly when `processBatch` returns without error. -/
def syncTick (hashFn : Header → Nat) (client : EthClientM) (env : PBEnv)
    (sync : SyncState) (trav : HeaderTraversal) (blockStep : Nat) :
    SyncState × HeaderTraversal :=
  if sync.headers.isEmpty then
    let res := nextHeaders hashFn client trav blockStep
    match res.1 with
    | .error _ => (sync, res.2)
    | .ok newHeaders =>
      let sync1 : SyncState := if newHeaders.isEmpty then sync else { headers := newHeaders }
      match processBatch hashFn env sync1.headers with
      | .ok _ => ({ headers := [] }, res.2)
      | .error _ => (sync1, res.2)
  else
    match processBatch hashFn env sync.headers with
    | .ok _ => ({ headers := [] }, trav)
    | .error _ => (sync, trav)

/-- A concrete processing environment where every step succeeds for the
single-header batch `[cexHeader0]`. -/
def pendingEnv : PBEnv :=
  { addressList := some []
  , filterLogs := some { logs := [], toBlockHeader := cexHeader0 }
  , persistCtx := fun _ => none
  , persist := fun _ => .ok () }

/-! ## txmgr/txmgr.go — the confirmation watcher `waitMined`

One iteration of the polling loop (txmgr.go:199-254), as a function of
what the backend answered on this poll.  `uint64` additions wrap modulo
`2^64`. -/

def wrap64 (n : Nat) : Nat := n % 2 ^ 64

structure Receipt where
  txHash : Nat
  blockNumber : Nat
deriving DecidableEq

/-- Outcome of `backend.TransactionReceipt` on one poll: a receipt, an
RPC error, or "nil receipt, nil error" (not yet mined). -/
inductive ReceiptResp where
  | found (receipt : Receipt)
  | failed
  | notMined
deriving DecidableEq

/-- One iteration of `waitMined`'s loop body.  `tipResp` is what
`backend.BlockNumber` answers (`none` = error, which the code treats as
"keep polling").  Returns the receipt to hand back (`some` = the loop
returns) and the updated `sendState` (the code guards every update with
`sendState != nil`). -/
def waitMinedStep (txHash : Nat) (numConfirmations : Nat)
    (resp : ReceiptResp) (tipResp : Option Nat)
    (sendState : Option SendState) : Option Receipt × Option SendState :=
  match resp with
  | .found receipt =>
    let st := match sendState with
      | some s => some (s.txMined txHash)
      | none => none
    match tipResp with
    | none => (none, st)
    | some tipHeight =>
      if wrap64 (receipt.blockNumber + numConfirmations) ≤ wrap64 (tipHeight + 1)
      then (some receipt, st)
      else (none, st)
  | .failed => (none, sendState)
  | .notMined =>
    (none, match sendState with
           | some s => some (s.txNotMined txHash)
           | none => none)

end ContractsCaller

namespace ContractsCaller

/-- C1: For every SendState constructed with abort threshold `t ≥ 1`:
immediately after construction `ShouldAbortImmediately` is false; at any
later point it is false whenever the mined-hash set is non-empty,
regardless of the counter; when the mined set is empty it is true iff the
counter is `≥ t`; the counter is incremented only by `ProcessSendError`
on a nonce-too-low-class error, is untouched by `TxMined`, and is reset
to 0 exactly by a `TxNotMined` call that empties a previously non-empty
mined set. -/
theorem sendState_abort_laws (t : Nat) (ht : 1 ≤ t) :
    (∀ s, NewSendState t = some s → s.shouldAbortImmediately = false) ∧
    (∀ s : SendState, s.minedTxs ≠ ∅ → s.shouldAbortImmediately = false) ∧
    (∀ s : SendState, s.safeAbortNonceTooLowCount = t → s.minedTxs = ∅ →
      (s.shouldAbortImmediately = true ↔ t ≤ s.nonceTooLowCount)) ∧
    (∀ (s : SendState) (err : GoError),
      (s.processSendError err).nonceTooLowCount =
        if isNonceTooLowError err then s.nonceTooLowCount + 1
        else s.nonceTooLowCount) ∧
    (∀ (s : SendState) (h : Nat),
      (s.txMined h).nonceTooLowCount = s.nonceTooLowCount) ∧
    (∀ (s : SendState) (h : Nat),
      (s.txNotMined h).nonceTooLowCount =
        if s.minedTxs.erase h = ∅ ∧ h ∈ s.minedTxs then 0
        else s.nonceTooLowCount) := by
  refine ⟨?_, ?_, ?_, ?_, ?_, ?_⟩
  · intro s hs
    simp only [NewSendState] at hs
    split at hs
    · exact absurd hs (by simp)
    · cases hs
      simp [SendState.shouldAbortImmediately]
      omega
  · intro s hne
    have hcard : 0 < s.minedTxs.card := Finset.card_pos.mpr (Finset.nonempty_iff_ne_empty.mpr hne)
    simp [SendState.shouldAbortImmediately, hcard]
  · intro s hst hempty
    have hcard : s.minedTxs.card = 0 := by simp [hempty]
    simp [SendState.shouldAbortImmediately, hcard, hst]
  · intro s err
    cases err with
    | none => simp [SendState.processSendError, isNonceTooLowError]
    | some msg =>
      simp only [SendState.processSendError, isNonceTooLowError]
      split <;> simp_all
  · intro s h
    simp [SendState.txMined]
  · intro s h
    simp only [SendState.txNotMined]
    split <;> simp_all

/-- Witness for `sendState_abort_laws` at the concrete threshold 3 used
by the repository's tests. -/
theorem sendState_abort_laws_witness :
    SendState.shouldAbortImmediately
      { minedTxs := ∅, nonceTooLowCount := 0, safeAbortNonceTooLowCount := 3 } = false :=
  (sendState_abort_laws 3 (by decide)).1 _ rfl

/-- Helper: on an always-failing operation under a live context, the
attempt loop performs all `r` remaining attempts and fails permanently
with the error of the last attempt. -/
lemma doAux_all_fail {E T : Type} (ctxErr : Nat → Option E) (op : Nat → Except E T)
    (maxAttempts : Int) (errs : Nat → E)
    (hctx : ∀ i, ctxErr i = none) (hop : ∀ i, op i = .error (errs i)) :
    ∀ (r i : Nat) (prevErr : Option E),
      doAux (T := T) ctxErr op maxAttempts i r prevErr =
        (r, .failedPermanently maxAttempts
              (if r = 0 then prevErr else some (errs (i + r - 1)))) := by
  intro r
  induction r with
  | zero => intro i prevErr; simp [doAux]
  | succ n ih =>
    intro i prevErr
    simp only [doAux, hctx i, hop i, ih (i + 1) (some (errs i))]
    rcases Nat.eq_zero_or_pos n with hn | hn
    · subst hn; simp
    · have h1 : ¬ (n = 0) := by omega
      have h2 : ¬ (n + 1 = 0) := by omega
      have h3 : i + 1 + n - 1 = i + (n + 1) - 1 := by omega
      simp [h1, h2, h3]

/-- C6: with `maxAttempts = k ≥ 1`, a non-cancelled context throughout,
and an operation failing on every invocation, `Do` invokes the operation
exactly `k` times and returns the distinguished "failed permanently"
error wrapping the last underlying error and recording the attempt count
`k`; with `maxAttempts < 1` it returns a usage error synchronously with
zero invocations. -/
theorem retry_do_exact_attempts {E T : Type} (k : Int) (hk : 1 ≤ k)
    (ctxErr : Nat → Option E) (op : Nat → Except E T) (errs : Nat → E)
    (hctx : ∀ i, ctxErr i = none) (hop : ∀ i, op i = .error (errs i)) :
    retryDo ctxErr op k = (k.toNat, .failedPermanently k (some (errs (k.toNat - 1)))) ∧
    (∀ m : Int, m < 1 → retryDo (T := T) ctxErr op m = (0, .usageError m)) := by
  constructor
  · have hklt : ¬ (k < 1) := by omega
    have hkpos : k.toNat ≠ 0 := by omega
    simp [retryDo, hklt, doAux_all_fail ctxErr op k errs hctx hop, hkpos]
  · intro m hm
    simp [retryDo, hm]

/-- Witness for `retry_do_exact_attempts`: three attempts of an operation
that always fails. -/
theorem retry_do_exact_attempts_witness :
    retryDo (E := Unit) (T := Unit) (fun _ => none) (fun _ => .error ()) 3 =
      (3, .failedPermanently 3 (some ())) :=
  (retry_do_exact_attempts 3 (by decide) (fun _ => none) (fun _ => .error ())
    (fun _ => ()) (fun _ => rfl) (fun _ => rfl)).1

/-- C5 counterexample: at strategy `{Min: 2s, Max: 3s, MaxJitter: 100ns}`,
attempt 1, sampled jitter 50ns, the code's `Duration` is
`min(Min + 2^1·s, Max) + 50 = 3s + 50ns`, while the claim's formula
`Min + min(Max, 2^1·s) + 50` gives `4s + 50ns` — the cap applies to the
whole base including `Min`, and yields `Max` alone, not `Min + Max`. -/
theorem exp_duration_spec_formula_cex :
    ExponentialStrategy.duration
        { Min := 2000000000, Max := 3000000000, MaxJitter := 100 } 1 50 ≠
        2000000000 + min 3000000000 (2 ^ (1 : Nat) * timeSecondNs) + 50 ∧
    ∀ j : Int, 0 ≤ j → j < 100 →
      ExponentialStrategy.duration
          { Min := 2000000000, Max := 3000000000, MaxJitter := 100 } 1 50 ≠
        2000000000 + min 3000000000 (2 ^ (1 : Nat) * timeSecondNs) + j := by
  have hdur : ExponentialStrategy.duration
      { Min := 2000000000, Max := 3000000000, MaxJitter := 100 } 1 50 =
      3000000050 := by decide
  have hmin : min (3000000000 : Int) (2 ^ (1 : Nat) * timeSecondNs) =
      2000000000 := by decide
  refine ⟨by rw [hdur, hmin]; decide, ?_⟩
  intro j h0 h1
  rw [hdur, hmin]
  omega

/-- C5 (amended): `Duration(attempt)` equals
`min(min + 2^attempt seconds, max) + j` for `attempt ≥ 0` — the cap
applies to the sum of `min` and the exponential term, producing `max`
alone when exceeded — and `min + j` for `attempt < 0`, where `j` is the
sampled jitter when `jitterMax > 0` and `0` otherwise. -/
theorem exp_duration_formula (e : ExponentialStrategy) (attempt : Int) (jit : Int) :
    e.duration attempt jit =
      (if attempt < 0 then e.Min else min (e.Min + 2 ^ attempt.toNat * timeSecondNs) e.Max) +
      (if 0 < e.MaxJitter then jit else 0) := by
  simp only [ExponentialStrategy.duration]
  split
  · rfl
  · rcases le_or_lt (e.Min + 2 ^ attempt.toNat * timeSecondNs) e.Max with h | h
    · rw [min_eq_left h, if_neg (by omega)]
    · rw [min_eq_right (le_of_lt h), if_pos h]

/-- C4: the strategy constants the Synchronizer actually passes are the
raw `time.Duration` values 1000ns, 20000ns and 250ns — not the 1s, 20s
and 250ms the code's own comment (and the spec) state — while the
attempt count is 10 as stated. -/
theorem sync_retry_params_eval :
    syncRetryStrategy.Min = 1000 ∧
    syncRetryStrategy.Max = 20000 ∧
    syncRetryStrategy.MaxJitter = 250 ∧
    syncRetryMaxAttempts = 10 ∧
    syncRetryStrategy.Min ≠ timeSecondNs ∧
    syncRetryStrategy.Max ≠ 20 * timeSecondNs ∧
    syncRetryStrategy.MaxJitter ≠ 250 * 1000000 := by
  refine ⟨rfl, rfl, rfl, rfl, ?_, ?_, ?_⟩ <;> decide

/-- Helper: everything the fetch tail can do on an `ok` outcome: either
the batch is empty and the state untouched, or the batch is exactly the
provider's range response, the cursor moved to its last element, and —
when a cursor existed — its first element was checked against the
cursor's hash. -/
lemma nextHeadersFetch_ok {hashFn : Header → Nat} {client : EthClientM}
    {f : HeaderTraversal} {endHeight : Int} {maxSize : Nat}
    {hs : List Header} {f' : HeaderTraversal}
    (h : nextHeadersFetch hashFn client f endHeight maxSize = (.ok hs, f')) :
    (hs = [] ∧ f' = f) ∨
      (client.range (fetchWindow f endHeight maxSize).1
          (fetchWindow f endHeight maxSize).2 = some hs ∧
       f' = { f with lastTraversedHeader := hs.getLast? } ∧
       hs ≠ [] ∧
       (∀ lt, f.lastTraversedHeader = some lt →
          ∃ h0 rest, hs = h0 :: rest ∧ h0.parentHash = hashFn lt)) := by
  rcases hr : client.range (fetchWindow f endHeight maxSize).1
      (fetchWindow f endHeight maxSize).2 with _ | headers
  · simp only [nextHeadersFetch, hr] at h
    simp at h
  · rcases headers with _ | ⟨h0, rest⟩
    · simp only [nextHeadersFetch, hr, Prod.mk.injEq, Except.ok.injEq] at h
      exact Or.inl ⟨h.1.symm, h.2.symm⟩
    · rcases hlt : f.lastTraversedHeader with _ | lt
      · simp only [nextHeadersFetch, hr, hlt, Prod.mk.injEq, Except.ok.injEq] at h
        obtain ⟨h1, h2⟩ := h
        subst h1; subst h2
        refine Or.inr ⟨rfl, rfl, by simp, ?_⟩
        intro lt' hlt'
        cases hlt'
      · simp only [nextHeadersFetch, hr, hlt] at h
        split at h
        · simp at h
        · next hph =>
          have hph' : h0.parentHash = hashFn lt := not_not.mp hph
          simp only [Prod.mk.injEq, Except.ok.injEq] at h
          obtain ⟨h1, h2⟩ := h
          subst h1; subst h2
          refine Or.inr ⟨rfl, rfl, by simp, ?_⟩
          intro lt' hlt'
          cases hlt'
          exact ⟨h0, rest, rfl, hph'⟩

/-- Helper: the fetch tail leaves the receiver untouched on every error
outcome. -/
lemma nextHeadersFetch_err {hashFn : Header → Nat} {client : EthClientM}
    {f : HeaderTraversal} {endHeight : Int} {maxSize : Nat}
    {e : TraversalError} {f' : HeaderTraversal}
    (h : nextHeadersFetch hashFn client f endHeight maxSize = (.error e, f')) :
    f' = f := by
  rcases hr : client.range (fetchWindow f endHeight maxSize).1
      (fetchWindow f endHeight maxSize).2 with _ | headers
  · simp only [nextHeadersFetch, hr, Prod.mk.injEq] at h
    exact h.2.symm
  · rcases headers with _ | ⟨h0, rest⟩
    · simp only [nextHeadersFetch, hr] at h
      simp at h
    · rcases hlt : f.lastTraversedHeader with _ | lt
      · simp only [nextHeadersFetch, hr, hlt] at h
        simp at h
      · simp only [nextHeadersFetch, hr, hlt] at h
        split at h
        · simp only [Prod.mk.injEq] at h
          exact h.2.symm
        · simp at h

/-- Helper: exhaustive description of a `NextHeaders` call: head-query
failure, one of the short-circuit returns after the head was stored, or
delegation to the fetch tail with a non-negative confirmed end height
that the next height does not exceed. -/
lemma nextHeaders_cases {hashFn : Header → Nat} {client : EthClientM}
    {f : HeaderTraversal} {maxSize : Nat}
    {r : Except TraversalError (List Header)} {f' : HeaderTraversal}
    (h : nextHeaders hashFn client f maxSize = (r, f')) :
    (r = .error .latestQueryFail ∧ f' = f) ∨
    (∃ latest, client.latest = some latest ∧
      ((r = .ok [] ∧ f' = { f with latestHeader := some latest }) ∨
       (r = .error .aheadOfProvider ∧ f' = { f with latestHeader := some latest }) ∨
       (0 ≤ (latest.number : Int) - f.blockConfirmationDepth ∧
        nextHeightOf { f with latestHeader := some latest } ≤
          (latest.number : Int) - f.blockConfirmationDepth ∧
        nextHeadersFetch hashFn client { f with latestHeader := some latest }
          ((latest.number : Int) - f.blockConfirmationDepth) maxSize = (r, f')))) := by
  rcases hc : client.latest with _ | latest
  · simp only [nextHeaders, hc, Prod.mk.injEq] at h
    exact Or.inl ⟨h.1.symm, h.2.symm⟩
  · refine Or.inr ⟨latest, rfl, ?_⟩
    simp only [nextHeaders, hc] at h
    split at h
    · simp only [Prod.mk.injEq] at h
      exact Or.inl ⟨h.1.symm, h.2.symm⟩
    · next hge =>
      split at h
      · next lt hlt =>
        split at h
        · simp only [Prod.mk.injEq] at h
          exact Or.inl ⟨h.1.symm, h.2.symm⟩
        · next hne =>
          split at h
          · simp only [Prod.mk.injEq] at h
            exact Or.inr (Or.inl ⟨h.1.symm, h.2.symm⟩)
          · next hnlt =>
            refine Or.inr (Or.inr ⟨by omega, ?_, h⟩)
            simp only [nextHeightOf, hlt]
            omega
      · next hlt =>
        refine Or.inr (Or.inr ⟨by omega, ?_, h⟩)
        simp only [nextHeightOf, hlt]
        omega

/-- C10: `NextHeaders` leaves the `lastTraversedHeader` cursor unchanged
on every error outcome and on every empty batch; it advances the cursor
exactly to the last header of the batch on a non-empty successful
batch. -/
theorem nextHeaders_cursor_frame (hashFn : Header → Nat) (client : EthClientM)
    (f : HeaderTraversal) (maxSize : Nat) :
    (∀ e f', nextHeaders hashFn client f maxSize = (.error e, f') →
        f'.lastTraversedHeader = f.lastTraversedHeader) ∧
    (∀ f', nextHeaders hashFn client f maxSize = (.ok [], f') →
        f'.lastTraversedHeader = f.lastTraversedHeader) ∧
    (∀ hs f', nextHeaders hashFn client f maxSize = (.ok hs, f') → hs ≠ [] →
        f'.lastTraversedHeader = hs.getLast?) := by
  refine ⟨?_, ?_, ?_⟩
  · intro e f' h
    rcases nextHeaders_cases h with ⟨-, rfl⟩ | ⟨latest, -, hcase⟩
    · rfl
    rcases hcase with ⟨hok, rfl⟩ | ⟨-, rfl⟩ | ⟨-, -, hf⟩
    · exact absurd hok (by simp)
    · rfl
    · rw [nextHeadersFetch_err hf]
  · intro f' h
    rcases nextHeaders_cases h with ⟨hbad, -⟩ | ⟨latest, -, hcase⟩
    · exact absurd hbad (by simp)
    rcases hcase with ⟨-, rfl⟩ | ⟨hbad, -⟩ | ⟨-, -, hf⟩
    · rfl
    · exact absurd hbad (by simp)
    · rcases nextHeadersFetch_ok hf with ⟨-, rfl⟩ | ⟨-, rfl, hne, -⟩
      · rfl
      · exact absurd rfl hne
  · intro hs f' h hne
    rcases nextHeaders_cases h with ⟨hbad, -⟩ | ⟨latest, -, hcase⟩
    · exact absurd hbad (by simp)
    rcases hcase with ⟨hok, -⟩ | ⟨hbad, -⟩ | ⟨-, -, hf⟩
    · simp only [Except.ok.injEq] at hok
      exact absurd hok hne
    · exact absurd hbad (by simp)
    · rcases nextHeadersFetch_ok hf with ⟨rfl, -⟩ | ⟨-, rfl, -, -⟩
      · exact absurd rfl hne
      · rfl

/-- Witness for `nextHeaders_cursor_frame`: on the concrete provider
`cexClient` the cursor advances to the last header of the returned
two-header batch. -/
theorem nextHeaders_cursor_frame_witness :
    HeaderTraversal.lastTraversedHeader
        (nextHeaders cexHashFn cexClient cexTraversal 10).2 =
      [cexHeader0, cexHeader1].getLast? :=
  (nextHeaders_cursor_frame cexHashFn cexClient cexTraversal 10).2.2
    [cexHeader0, cexHeader1] _ rfl (by simp)

/-- C2 counterexample: `NextHeaders` on a fresh traversal against a
provider whose range response is the pair `cexHeader0, cexHeader1` with
`cexHeader1.parentHash = 42 ≠ hash(cexHeader0) = 1000` returns that very
batch without error — parent-hash linkage between adjacent headers of
the batch is *not* guaranteed; only the cursor-to-first-header link is
ever checked (and here no cursor exists, so nothing is checked at
all). -/
theorem nextHeaders_intra_batch_link_cex :
    (nextHeaders cexHashFn cexClient cexTraversal 10).1 =
        .ok [cexHeader0, cexHeader1] ∧
      linked cexHashFn [cexHeader0, cexHeader1] = false :=
  ⟨rfl, rfl⟩

/-- C2 (amended): inside a batch returned by `NextHeaders`, parent-hash
linkage is validated only between the stored cursor and the first
fetched header; linkage between adjacent headers of the batch holds only
when the provider's range responses are themselves parent-linked. -/
theorem nextHeaders_link_checked_at_cursor
    (hashFn : Header → Nat) (client : EthClientM) (f : HeaderTraversal)
    (maxSize : Nat)
    (hranges : ∀ (a b : Int) (hs : List Header), client.range a b = some hs →
        linked hashFn hs = true) :
    ∀ hs f', nextHeaders hashFn client f maxSize = (.ok hs, f') →
      linked hashFn hs = true ∧
      (∀ lt h0 rest, f.lastTraversedHeader = some lt → hs = h0 :: rest →
        h0.parentHash = hashFn lt) := by
  intro hs f' h
  rcases nextHeaders_cases h with ⟨hbad, -⟩ | ⟨latest, -, hcase⟩
  · exact absurd hbad (by simp)
  rcases hcase with ⟨hok, -⟩ | ⟨hbad, -⟩ | ⟨-, -, hf⟩
  · obtain rfl : hs = [] := by simpa using hok
    exact ⟨rfl, fun lt h0 rest _ hcons => absurd hcons (by simp)⟩
  · exact absurd hbad (by simp)
  · rcases nextHeadersFetch_ok hf with ⟨rfl, -⟩ | ⟨hrange, -, -, hfirst⟩
    · exact ⟨rfl, fun lt h0 rest _ hcons => absurd hcons (by simp)⟩
    · refine ⟨hranges _ _ _ hrange, ?_⟩
      intro lt h0 rest hlt hcons
      obtain ⟨h0', rest', hcons', hph⟩ := hfirst lt hlt
      rw [hcons] at hcons'
      injection hcons' with he _
      rw [he]
      exact hph

/-- Witness for `nextHeaders_link_checked_at_cursor`: a provider whose
range responses are linked yields a linked batch. -/
theorem nextHeaders_link_checked_at_cursor_witness :
    linked cexHashFn [cexHeader0, linkHeaderB] = true :=
  ((nextHeaders_link_checked_at_cursor cexHashFn linkedClient cexTraversal 10
      (fun _ _ _ h => by cases h; rfl)) [cexHeader0, linkHeaderB] _ rfl).1

/-- Helper: `bigint.Clamp(next, safeEnd, size)` is exactly
`min(safeEnd, next + size − 1)` whenever `next ≤ safeEnd`. -/
lemma clamp_eq_min (next safeEnd : Int) (size : Nat) (hle : next ≤ safeEnd) :
    clamp next safeEnd size = min safeEnd (next + (size : Int) - 1) := by
  unfold clamp
  split
  · next hcount => rw [min_eq_left (by omega)]
  · next hcount => rw [min_eq_right (by omega)]; omega

/-- C7: on the fetch path the requested window end is
`min(safeEnd, nextHeight + maxBatchSize − 1)` (the `clamp` identity),
and — provided the provider answers a range query `[a, b]` only with
headers whose numbers are at most `b` — no header returned by
`NextHeaders` has a number above `head.number − confirmationDepth`. -/
theorem nextHeaders_window_clamp (hashFn : Header → Nat) (client : EthClientM)
    (f : HeaderTraversal) (maxSize : Nat)
    (hrange : ∀ (a b : Int) (hs : List Header), client.range a b = some hs →
        ∀ hd ∈ hs, (hd.number : Int) ≤ b) :
    (∀ (next safeEnd : Int) (size : Nat), next ≤ safeEnd →
        clamp next safeEnd size = min safeEnd (next + (size : Int) - 1)) ∧
    (∀ hs f', nextHeaders hashFn client f maxSize = (.ok hs, f') →
        ∀ latest, f'.latestHeader = some latest →
          ∀ hd ∈ hs, (hd.number : Int) ≤
            (latest.number : Int) - f.blockConfirmationDepth) := by
  refine ⟨clamp_eq_min, ?_⟩
  intro hs f' h latest' hlat hd hmem
  rcases nextHeaders_cases h with ⟨hbad, -⟩ | ⟨latest, -, hcase⟩
  · exact absurd hbad (by simp)
  rcases hcase with ⟨hok, rfl⟩ | ⟨hbad, -⟩ | ⟨-, hnext, hf⟩
  · obtain rfl : hs = [] := by simpa using hok
    simp at hmem
  · exact absurd hbad (by simp)
  · rcases nextHeadersFetch_ok hf with ⟨rfl, -⟩ | ⟨hrangeEq, rfl, -, -⟩
    · simp at hmem
    · simp only at hlat
      obtain rfl : latest' = latest := by
        have : some latest = some latest' := hlat.symm ▸ rfl
        simpa using hlat.symm
      have hb := hrange _ _ _ hrangeEq hd hmem
      simp only [fetchWindow] at hb
      rw [clamp_eq_min _ _ _ hnext] at hb
      exact le_trans hb (min_le_left _ _)

/-- Witness for `nextHeaders_window_clamp`: the clamp identity at the
concrete window `[0, 5]` with batch size 10. -/
theorem nextHeaders_window_clamp_witness :
    clamp 0 5 10 = min 5 (0 + (10 : Int) - 1) :=
  (nextHeaders_window_clamp cexHashFn emptyRangeClient cexTraversal 10
      (fun _ _ _ hr => by cases hr; intro hd hmem; simp at hmem)).1
    0 5 10 (by decide)

/-- C3 (code-bug evaluation): for the single-header batch `[cexHeader0]`
the slice handed to the persistence transaction holds *two* records —
a zero-valued one from the `make`-with-length allocation followed by the
real one appended by the loop — and in general `2·n` records for an
`n`-header batch, not the `n` the spec states. -/
theorem processBatch_record_count_eval :
    buildBlockHeaders cexHashFn [cexHeader0] =
        [zeroBlockRecord,
         { hash := 1000, parentHash := 7, number := 0, timestamp := 0 }] ∧
    (buildBlockHeaders cexHashFn [cexHeader0]).length ≠ 1 ∧
    (∀ (hashFn : Header → Nat) (hs : List Header),
        (buildBlockHeaders hashFn hs).length = 2 * hs.length) := by
  refine ⟨rfl, by decide, ?_⟩
  intro hashFn hs
  simp [buildBlockHeaders]
  omega

/-- C8: while a batch is pending (non-empty buffer), one loop iteration
is independent of the chain client — the same batch is re-processed and
no headers are fetched, the traversal state untouched; the buffer is
cleared exactly when `processBatch` succeeds; and, for a non-empty
batch, `processBatch` succeeds exactly when every pre-persistence step
passes and the persistence transaction (under its 10-attempt retry)
succeeds. -/
theorem sync_tick_pending_batch (hashFn : Header → Nat) (env : PBEnv)
    (sync : SyncState) (trav : HeaderTraversal) (blockStep : Nat)
    (hpending : sync.headers ≠ []) :
    (∀ client client₂ : EthClientM,
        syncTick hashFn client env sync trav blockStep =
          syncTick hashFn client₂ env sync trav blockStep) ∧
    (∀ client, (syncTick hashFn client env sync trav blockStep).2 = trav) ∧
    (∀ client, (syncTick hashFn client env sync trav blockStep).1.headers =
        if processBatch hashFn env sync.headers = .ok () then []
        else sync.headers) ∧
    (∀ h0 rest, sync.headers = h0 :: rest →
        (processBatch hashFn env sync.headers = .ok () ↔
          persistSucceeded hashFn env ((h0 :: rest).getLast (by simp)))) := by
  have hEmp : sync.headers.isEmpty = false := by
    cases hsyn : sync.headers
    · exact absurd hsyn hpending
    · rfl
  refine ⟨?_, ?_, ?_, ?_⟩
  · intro client client₂
    simp [syncTick, hEmp]
  · intro client
    simp only [syncTick, hEmp, Bool.false_eq_true, if_false]
    split <;> rfl
  · intro client
    simp only [syncTick, hEmp, Bool.false_eq_true, if_false]
    split
    · next v heq =>
      cases v
      simp [heq]
    · next e heq =>
      rw [heq]
      simp
  · intro h0 rest hsh
    rw [hsh]
    simp only [processBatch]
    rcases ha : env.addressList with _ | l
    · simp [persistSucceeded, ha]
    rcases hf : env.filterLogs with _ | logs
    · simp [persistSucceeded, ha, hf]
    by_cases h1 : logs.toBlockHeader.number = ((h0 :: rest).getLast (by simp)).number
    · by_cases h2 : hashFn logs.toBlockHeader = hashFn ((h0 :: rest).getLast (by simp))
      · rcases hr : (retryDo env.persistCtx env.persist syncRetryMaxAttempts).2
          with v | e | m | ⟨a, le⟩
        · simp [persistSucceeded, ha, hf, h1, h2, hr]
        · simp [persistSucceeded, ha, hf, h1, h2, hr]
        · simp [persistSucceeded, ha, hf, h1, h2, hr]
        · simp [persistSucceeded, ha, hf, h1, h2, hr]
      · simp [persistSucceeded, ha, hf, h1, h2]
    · simp [persistSucceeded, ha, hf, h1]

/-- Witness for `sync_tick_pending_batch`: on a concrete pending
single-header batch with an all-success environment, the buffer clears
exactly as the claim says. -/
theorem sync_tick_pending_batch_witness :
    (syncTick cexHashFn cexClient pendingEnv { headers := [cexHeader0] }
        cexTraversal 10).1.headers =
      if processBatch cexHashFn pendingEnv [cexHeader0] = .ok () then []
      else [cexHeader0] :=
  (sync_tick_pending_batch cexHashFn pendingEnv { headers := [cexHeader0] }
      cexTraversal 10 (by simp)).2.2.1 cexClient

/-- C9: one iteration of `waitMined` returns a receipt exactly when the
backend answered with that receipt, the tip query succeeded, and
`txHeight + numConfirmations ≤ tipHeight + 1` (in `uint64` arithmetic);
under no overflow this is the plain inequality, and a transaction mined
at the current tip with `numConfirmations = 1` is confirmed immediately.
In every other case the iteration hands back no receipt, i.e. the loop
keeps polling. -/
theorem waitMined_confirmation_rule (txHash numConfirmations : Nat)
    (resp : ReceiptResp) (tipResp : Option Nat) (st : Option SendState) :
    (∀ receipt,
        (waitMinedStep txHash numConfirmations resp tipResp st).1 = some receipt ↔
          (∃ tipHeight, resp = .found receipt ∧ tipResp = some tipHeight ∧
            wrap64 (receipt.blockNumber + numConfirmations) ≤ wrap64 (tipHeight + 1))) ∧
    (∀ receipt tipHeight, resp = .found receipt → tipResp = some tipHeight →
        receipt.blockNumber + numConfirmations < 2 ^ 64 → tipHeight + 1 < 2 ^ 64 →
        ((waitMinedStep txHash numConfirmations resp tipResp st).1 = some receipt ↔
          receipt.blockNumber + numConfirmations ≤ tipHeight + 1)) ∧
    (∀ receipt tipHeight, resp = .found receipt → tipResp = some tipHeight →
        receipt.blockNumber = tipHeight → tipHeight + 1 < 2 ^ 64 →
        numConfirmations = 1 →
        (waitMinedStep txHash numConfirmations resp tipResp st).1 = some receipt) := by
  refine ⟨?_, ?_, ?_⟩
  · intro receipt
    cases resp with
    | found r =>
      cases tipResp with
      | none => simp [waitMinedStep]
      | some tip =>
        by_cases hcond : wrap64 (r.blockNumber + numConfirmations) ≤ wrap64 (tip + 1)
        · simp only [waitMinedStep, if_pos hcond, Option.some.injEq]
          constructor
          · rintro rfl
            exact ⟨tip, rfl, rfl, hcond⟩
          · rintro ⟨tipHeight, hfound, -, -⟩
            cases hfound
            rfl
        · simp only [waitMinedStep, if_neg hcond]
          constructor
          · rintro h
            simp at h
          · rintro ⟨tipHeight, hfound, htip, hle⟩
            cases hfound
            cases htip
            exact absurd hle hcond
    | failed => simp [waitMinedStep]
    | notMined => simp [waitMinedStep]
  · rintro receipt tipHeight rfl rfl hov1 hov2
    by_cases hcond : wrap64 (receipt.blockNumber + numConfirmations) ≤ wrap64 (tipHeight + 1)
    · simp only [waitMinedStep, if_pos hcond, Option.some.injEq]
      unfold wrap64 at hcond
      rw [Nat.mod_eq_of_lt hov1, Nat.mod_eq_of_lt hov2] at hcond
      simp [hcond]
    · simp only [waitMinedStep, if_neg hcond]
      unfold wrap64 at hcond
      rw [Nat.mod_eq_of_lt hov1, Nat.mod_eq_of_lt hov2] at hcond
      simp [hcond]
  · rintro receipt tipHeight rfl rfl hbn hov rfl
    simp [waitMinedStep, hbn]

/-- Witness for `waitMined_confirmation_rule`: a receipt mined at block
100 with the tip at 100 and one required confirmation is returned on
the spot. -/
theorem waitMined_confirmation_rule_witness :
    (waitMinedStep 1 1 (.found { txHash := 1, blockNumber := 100 })
        (some 100) none).1 = some { txHash := 1, blockNumber := 100 } :=
  (waitMined_confirmation_rule 1 1 (.found { txHash := 1, blockNumber := 100 })
      (some 100) none).2.2 { txHash := 1, blockNumber := 100 } 100
    rfl rfl rfl (by decide) rfl

end ContractsCaller
